import Mathlib

/-!
Shallow embedding of the dependency-resolution and packaging engine of the
`lwc-registry-plugin` deploy command (`src/commands/registry/deploy.ts` and
`src/utils/constants.ts`), together with theorems settling the frozen claims
about it.

The filesystem is abstracted by explicit oracle structures (`FileSys`,
`DirFs`, `ResourceFs`, directory trees `FsNode`): each Lean definition is a
direct transcription of the corresponding TypeScript function, with `await`
on filesystem primitives replaced by a lookup in the oracle and thrown
exceptions replaced by `Except.error`.
-/

namespace LwcRegistry

/-- Artifact kind (source type `ItemType = 'component' | 'class'`). -/
inductive ItemType where
  | component
  | cls
deriving DecidableEq, Repr

/-- String label of an `ItemType`, as interpolated in template strings. -/
def ItemType.label : ItemType → String
  | .component => "component"
  | .cls => "class"

/-- Seen-set key (source: `const key = dependenceType + ":" + dependenceName`). -/
def mkKey (ty : ItemType) (name : String) : String :=
  ty.label ++ ":" ++ name

/-- A direct dependency record `{ name, type }`. -/
structure Dep where
  name : String
  type : ItemType
deriving DecidableEq, Repr

/-- A manifest entry (source type `RegistryDep`); `version = none` models the
absent optional field. -/
structure RegistryDep where
  name : String
  type : ItemType
  dependencies : List Dep
  staticresources : List String
  version : Option String
deriving DecidableEq, Repr

/-- The `kind:name` key of a manifest entry. -/
def entryKey (e : RegistryDep) : String :=
  mkKey e.type e.name

/-- Filesystem read error: `enoent` models an ENOENT (missing file), `other`
models any other exception thrown by `fs.readFile`. -/
inductive FsError where
  | enoent
  | other
deriving DecidableEq, Repr

/-- Oracle for `fs.readFile(path, 'utf8')`. -/
structure FileSys where
  readFile : String → Except FsError String

/-- JS regular-expression word character (`\w`): ASCII letter, digit or
underscore. -/
def isWordChar (c : Char) : Bool :=
  c.isAlpha || c.isDigit || c == '_'

/-- Left word-boundary test: true at start of input or after a non-word
character. -/
def leftOk (prev : Option Char) : Bool :=
  match prev with
  | none => true
  | some c => !isWordChar c

/-- Right word-boundary test for what follows a match. -/
def rightOk (post : List Char) : Bool :=
  match post with
  | [] => true
  | c :: _ => !isWordChar c

/-- `name` occurs at the head of `rest` followed by a right word boundary. -/
def wordEndsAt (name rest : List Char) : Bool :=
  name.isPrefixOf rest && rightOk (rest.drop name.length)

/-- Scan of `rest` for an occurrence of `name` delimited by word boundaries,
carrying the previous character in `prev`. -/
def wbScan (name : List Char) : Option Char → List Char → Bool
  | prev, [] => leftOk prev && wordEndsAt name []
  | prev, c :: cs => (leftOk prev && wordEndsAt name (c :: cs)) || wbScan name (some c) cs

/-- Embedding of `new RegExp("\\b" + className + "\\b").test(code)` for a
`className` made of word characters (as Apex class names are). -/
def testWordBoundary (className code : String) : Bool :=
  wbScan className.toList none code.toList

/-- Source `extractApexDependencies`: reads the `.cls` source (any read
failure, including a missing file, propagates — there is no try/catch) and
keeps every other known class name occurring in the code as a standalone
word. -/
def extractApexDependencies (fsys : FileSys) (clsFilePath : String)
    (allClassNames : List String) (selfClassName : String) :
    Except FsError (List String) :=
  match fsys.readFile clsFilePath with
  | .error e => .error e
  | .ok code =>
      .ok (allClassNames.filter fun className =>
        className != selfClassName && testWordBoundary className code)

/-- First-occurrence deduplication with an accumulator of already-seen
elements. -/
def dedupFirstAux (seen : List String) : List String → List String
  | [] => []
  | x :: xs =>
      if x ∈ seen then dedupFirstAux seen xs
      else x :: dedupFirstAux (x :: seen) xs

/-- JS `Array.from(new Set(l))`: keeps the first occurrence of each element,
in order. -/
def dedupFirst (l : List String) : List String :=
  dedupFirstAux [] l

/-- Source `extractDependenciesFromFile`: reads the file and returns the
deduplicated capture groups of the regex (abstracted by `matchesOf`); an
ENOENT error is the normal missing-file case and yields the empty list,
any other error propagates. -/
def extractDependenciesFromFile (fsys : FileSys) (filePath : String)
    (matchesOf : String → List String) : Except FsError (List String) :=
  match fsys.readFile filePath with
  | .error .enoent => .ok []
  | .error e => .error e
  | .ok code => .ok (dedupFirst (matchesOf code))

/-- JS `String.prototype.startsWith` (the Lean core `String.startsWith` has
the same semantics but does not reduce in the kernel, so the character-list
form is used). -/
def strStartsWith (s pre : String) : Bool :=
  pre.toList.isPrefixOf s.toList

/-- JS `String.prototype.endsWith`. -/
def strEndsWith (s suf : String) : Bool :=
  suf.toList.isSuffixOf s.toList

/-- JS `String.prototype.toLowerCase` on ASCII strings. -/
def toLowerStr (s : String) : String :=
  String.mk (s.toList.map Char.toLower)

/-- Result of `fs.stat`: a regular file or a directory. -/
inductive FileKind where
  | file
  | dir
deriving DecidableEq, Repr

/-- Oracle for the static-resources root directory: `listing` is
`fs.readdir(resourceDir)` (`none` models a thrown error), `stat` is
`fs.stat` on a path (`none` models a thrown error). -/
structure ResourceFs where
  listing : Option (List String)
  stat : String → Option FileKind

/-- Source `fileExistsAndIsFile`: `fs.stat` succeeded and reported a regular
file; a thrown stat error yields `false`. -/
def fileExistsAndIsFile (rfs : ResourceFs) (filePath : String) : Bool :=
  match rfs.stat filePath with
  | some .file => true
  | _ => false

/-- The acceptance predicate of `findStaticResourceFileAsync`'s `find`
callback: the file name equals the resource name or starts with it followed
by a dot, and does not end with the metadata-descriptor suffix. -/
def isPayloadFor (resName file : String) : Bool :=
  (file == resName || strStartsWith file (resName ++ ".")) &&
    !(strEndsWith file ".resource-meta.xml")

/-- Source `findStaticResourceFileAsync`: lists the static-resources root
(`none` on a readdir error, mirroring the catch-all returning null) and
returns the joined path of the first file accepted by `isPayloadFor`. -/
def findStaticResourceFileAsync (rfs : ResourceFs) (resourceDir resName : String) :
    Option String :=
  match rfs.listing with
  | none => none
  | some files =>
      (files.find? fun file => isPayloadFor resName file).map
        fun f => resourceDir ++ "/" ++ f

/-- The body of the per-resource check inside `validateStaticResources`:
missing payload file, then missing metadata descriptor, each raising a
descriptive error. -/
def validateOneResource (rfs : ResourceFs) (resourceDir resName : String) :
    Except String Unit :=
  let metaFile := resourceDir ++ "/" ++ resName ++ ".resource-meta.xml"
  if (findStaticResourceFileAsync rfs resourceDir resName).isNone then
    .error ("Ressource statique référencée mais introuvable: " ++ resName)
  else if !fileExistsAndIsFile rfs metaFile then
    .error ("Fichier .resource-meta.xml manquant pour la ressource statique: " ++ resName)
  else
    .ok ()

/-- Source `validateStaticResources`: every referenced resource is checked;
the first failing check aborts with its error (`Promise.all` rejection). -/
def validateStaticResources (rfs : ResourceFs) (resourceDir : String) :
    List String → Except String Unit
  | [] => .ok ()
  | r :: rs =>
      match validateOneResource rfs resourceDir r with
      | .error msg => .error msg
      | .ok _ => validateStaticResources rfs resourceDir rs

/-- A `fs.readdir(base, withFileTypes)` entry. -/
structure DirEnt where
  name : String
  isDir : Bool
deriving DecidableEq, Repr

/-- Oracle for `fs.readdir(base, withFileTypes)`: `none` models a thrown
error (absent or unreadable directory). -/
structure DirFs where
  readdir : String → Option (List DirEnt)

/-- Source `safeListDirNamesAsync`: returns the names of the immediate
subdirectory entries; a readdir failure is wrapped in a new descriptive
`Error` and rethrown (caught higher up, in `scanProject`). -/
def safeListDirNamesAsync (dfs : DirFs) (base : String) : Except String (List String) :=
  match dfs.readdir base with
  | none => .error ("Erreur lors de la lecture du dossier " ++ base)
  | some entries => .ok ((entries.filter fun e => e.isDir).map fun e => e.name)

/-- A node of an on-disk directory tree, as seen by `walkDirAsync`. -/
inductive FsNode where
  | file (name : String)
  | dir (name : String) (children : List FsNode)
deriving Repr

mutual
/-- One entry step of the source generator `walkDirAsync`: a file yields its
joined path, a directory recursively yields the paths below it. -/
def walkNode (dirPath : String) : FsNode → List String
  | .file name => [dirPath ++ "/" ++ name]
  | .dir name children => walkNodes (dirPath ++ "/" ++ name) children

/-- Source `walkDirAsync` over a directory's children, in readdir order. -/
def walkNodes (dirPath : String) : List FsNode → List String
  | [] => []
  | n :: ns => walkNode dirPath n ++ walkNodes dirPath ns
end

/-- Full walk of the tree rooted at `dirPath` with the given children. -/
def walkDirAsync (dirPath : String) (children : List FsNode) : List String :=
  walkNodes dirPath children

/-- The basename of a joined path: the characters after the last `/`. -/
def basenameChars (cs : List Char) : List Char :=
  ((cs.reverse.takeWhile fun c => c != '/').reverse)

/-- Node `path.extname`: the suffix of the basename from its last dot,
empty when there is no dot or when the only dot is the leading character. -/
def extnameOf (p : String) : String :=
  let b := basenameChars p.toList
  let afterDot := b.reverse.takeWhile fun c => c != '.'
  if afterDot.length == b.length then ""
  else if afterDot.length + 1 == b.length then ""
  else String.mk ('.' :: afterDot.reverse)

/-- The forbidden-extension blacklist of `src/utils/constants.ts`
(`FORBIDDEN_EXTENSIONS`). -/
def FORBIDDEN_EXTENSIONS : List String :=
  [".sh", ".bash", ".zsh", ".bat", ".cmd", ".ps1", ".exe", ".scr", ".vbs",
   ".msi", ".php", ".py", ".pl", ".rb", ".jar", ".com", ".wsf"]

/-- Errors aborting dependency resolution. `forbidden` carries the offending
file path and its lower-cased extension (source `checkForbiddenFiles` call
to `this.error`); `extraction` models an error thrown while computing an
artifact's dependencies; `fuelExhausted` is an artifact of the bounded
recursion in this embedding and never occurs for sufficient fuel. -/
inductive DeployError where
  | forbidden (filePath extension : String)
  | extraction (e : FsError)
  | fuelExhausted
deriving DecidableEq, Repr

/-- First file of the walk whose lower-cased extension is forbidden, with
that extension (the loop body of `checkForbiddenFiles`). -/
def firstForbidden : List String → Option (String × String)
  | [] => none
  | p :: ps =>
      let ext := toLowerStr (extnameOf p)
      if ext ∈ FORBIDDEN_EXTENSIONS then some (p, ext) else firstForbidden ps

/-- Source `checkForbiddenFiles`: walks the artifact directory and aborts on
the first file whose extension is blacklisted, naming the file and the
extension. -/
def checkForbiddenFiles (dirPath : String) (children : List FsNode) :
    Except DeployError Unit :=
  match firstForbidden (walkDirAsync dirPath children) with
  | some (p, ext) => .error (.forbidden p ext)
  | none => .ok ()

/-- The inputs of `collectDependencies` other than the traversal state: the
`params` record plus oracles for the per-artifact filesystem reads performed
by its callees (`getItemDependencies`, `findStaticResourcesForComponent`,
the artifact directory path and tree used by `checkForbiddenFiles`). -/
structure AnalysisEnv where
  getItemDependencies : String → ItemType → Except DeployError (List Dep)
  staticResourcesOf : String → List String
  dirPathOf : ItemType → String → String
  dirTreeOf : ItemType → String → List FsNode
  version : String

/-- The `Promise.all(dependencies.map(...))` fan-out of `collectDependencies`,
abstracted over the recursive call `step`: the shared `seen` set is threaded
left to right and the per-dependency entry lists are concatenated in
dependency order. -/
def collectDepsListWith
    (step : Dep → List String → Except DeployError (List RegistryDep × List String)) :
    List Dep → List String → Except DeployError (List RegistryDep × List String)
  | [], seen => .ok ([], seen)
  | d :: ds, seen =>
    match step d seen with
    | .error e => .error e
    | .ok (out1, seen1) =>
      match collectDepsListWith step ds seen1 with
      | .error e => .error e
      | .ok (out2, seen2) => .ok (out1 ++ out2, seen2)

/-- Source `collectDependencies`: seen-set guard, forbidden-file check,
dependency and static-resource extraction, manifest entry construction
(`version` attached only when this is the first visited item and the
supplied version string is truthy), then recursion into the direct
dependencies. The shared mutable `seen` set is threaded as explicit state;
`fuel` bounds the recursion depth (the source recursion is bounded by the
finitely many artifacts on disk, so any sufficiently large fuel is exact). -/
def collectDependencies (env : AnalysisEnv) :
    Nat → String → ItemType → List String →
    Except DeployError (List RegistryDep × List String)
  | fuel, dependenceName, dependenceType, seen =>
    let key := mkKey dependenceType dependenceName
    if key ∈ seen then .ok ([], seen)
    else
      match fuel with
      | 0 => .error .fuelExhausted
      | fuel' + 1 =>
        let seen1 := key :: seen
        match checkForbiddenFiles (env.dirPathOf dependenceType dependenceName)
                (env.dirTreeOf dependenceType dependenceName) with
        | .error e => .error e
        | .ok _ =>
          match env.getItemDependencies dependenceName dependenceType with
          | .error e => .error e
          | .ok dependencies =>
            let staticresources :=
              if dependenceType == ItemType.component
              then env.staticResourcesOf dependenceName else []
            let isFirstItem := seen1.length == 1
            let item : RegistryDep :=
              { name := dependenceName
                type := dependenceType
                dependencies := dependencies
                staticresources := staticresources
                version := if isFirstItem && env.version != "" then some env.version else none }
            match collectDepsListWith
                    (fun d s => collectDependencies env fuel' d.name d.type s)
                    dependencies seen1 with
            | .error e => .error e
            | .ok (rest, seen2) => .ok (item :: rest, seen2)

/-- The recursion over a node's direct dependencies at a given fuel level. -/
def collectDepsList (env : AnalysisEnv) (fuel : Nat) :
    List Dep → List String → Except DeployError (List RegistryDep × List String) :=
  collectDepsListWith fun d s => collectDependencies env fuel d.name d.type s

/-- Outcome of one deploy invocation in the embedding of `run`. -/
inductive RunOutcome where
  | collectFailed (e : DeployError)
  | validationFailed (msg : String)
  | deployed (itemsToZip : List RegistryDep) (staticResources : List String)
deriving Repr

/-- Trace of a deploy run: its outcome, whether `createDeploymentPackage`
was invoked, and whether `sendPackage` (the network upload) was invoked. -/
structure RunTrace where
  outcome : RunOutcome
  archiveBuilt : Bool
  networkCalled : Bool
deriving Repr

/-- Steps 3-6 of the source `run` method: collect the dependency manifest,
take the set of referenced static resources, validate them, and only then
build the archive and upload it. A failure at any step aborts before the
later steps run. -/
def runDeploy (env : AnalysisEnv) (rfs : ResourceFs) (resourceDir : String)
    (fuel : Nat) (name : String) (ty : ItemType) : RunTrace :=
  match collectDependencies env fuel name ty [] with
  | .error e => ⟨.collectFailed e, false, false⟩
  | .ok (itemsToZip, _) =>
    let staticResources := dedupFirst (itemsToZip.flatMap fun item => item.staticresources)
    match validateStaticResources rfs resourceDir staticResources with
    | .error msg => ⟨.validationFailed msg, false, false⟩
    | .ok _ => ⟨.deployed itemsToZip staticResources, true, true⟩

/-- The manifest entry built by one non-skipped `collectDependencies`
invocation (the `item` local of the source), as a function of the incoming
seen set. -/
def mkEntry (env : AnalysisEnv) (n : String) (t : ItemType) (deps : List Dep)
    (seen : List String) : RegistryDep :=
  { name := n
    type := t
    dependencies := deps
    staticresources := if t == ItemType.component then env.staticResourcesOf n else []
    version :=
      if (mkKey t n :: seen).length == 1 && env.version != "" then some env.version else none }

/-- Traversal invariant of the resolver, relating the incoming seen set, the
produced manifest fragment and the final seen set: entry keys are distinct,
none was already seen, the final seen set is the union of the incoming one
and the produced keys, class entries carry no static resources, and entries
produced under a non-clean seen set carry no version. -/
def ResolveInv (seen : List String) (out : List RegistryDep) (s2 : List String) : Prop :=
  (out.map entryKey).Nodup ∧
  (∀ k ∈ out.map entryKey, k ∉ seen) ∧
  (∀ k, k ∈ s2 ↔ k ∈ seen ∨ k ∈ out.map entryKey) ∧
  (∀ e ∈ out, e.type = ItemType.cls → e.staticresources = []) ∧
  (seen ≠ [] → ∀ e ∈ out, e.version = none)

/-- The character immediately preceding a match at offset `pre.length`, given
the character `prev` that precedes the whole scanned region. -/
def ctxOf (prev : Option Char) (pre : List Char) : Option Char :=
  match pre.getLast? with
  | some c => some c
  | none => prev

/-- Example analysis environment realising the spec scenario: root component
`Foo` depends on component `Bar` and class `Baz` and references static
resource `Logo`; `Bar` depends on class `Qux`. -/
def exampleEnv : AnalysisEnv where
  getItemDependencies := fun n _ =>
    if n = "Foo" then .ok [⟨"Bar", ItemType.component⟩, ⟨"Baz", ItemType.cls⟩]
    else if n = "Bar" then .ok [⟨"Qux", ItemType.cls⟩]
    else .ok []
  staticResourcesOf := fun n => if n = "Foo" then ["Logo"] else []
  dirPathOf := fun _ n => "/p/" ++ n
  dirTreeOf := fun _ _ => [.file "a.html"]
  version := "1.0.0"

/-- Example analysis environment with a cyclic source graph: classes `A` and
`B` reference each other. -/
def cyclicEnv : AnalysisEnv where
  getItemDependencies := fun n _ =>
    if n = "A" then .ok [⟨"B", ItemType.cls⟩] else .ok [⟨"A", ItemType.cls⟩]
  staticResourcesOf := fun _ => []
  dirPathOf := fun _ n => "/p/" ++ n
  dirTreeOf := fun _ _ => []
  version := ""

/-- Example analysis environment whose artifact directory contains a file
with a forbidden extension (`deploy.SH`, blacklisted case-insensitively). -/
def forbiddenEnv : AnalysisEnv where
  getItemDependencies := fun _ _ => .ok []
  staticResourcesOf := fun _ => []
  dirPathOf := fun _ n => "/p/" ++ n
  dirTreeOf := fun _ _ => [.dir "sub" [.file "deploy.SH"], .file "ok.html"]
  version := "2"

/-- Read oracle on which every file read fails with ENOENT. -/
def enoentFileSys : FileSys :=
  ⟨fun _ => .error .enoent⟩

/-- Directory oracle on which every readdir fails (absent or unreadable). -/
def absentDirFs : DirFs :=
  ⟨fun _ => none⟩

/-- Directory oracle with a fixed listing of two subdirectories and a file. -/
def exampleDirFs : DirFs :=
  ⟨fun _ => some [⟨"compA", true⟩, ⟨"notes.txt", false⟩, ⟨"compB", true⟩]⟩

/-- Static-resources root containing the payload and descriptor of `Logo`. -/
def exampleResourceFs : ResourceFs where
  listing := some ["Logo.png", "Logo.resource-meta.xml"]
  stat := fun p => if p = "/res/Logo.resource-meta.xml" then some .file else none

/-- Static-resources root containing no file at all. -/
def emptyResourceFs : ResourceFs where
  listing := some []
  stat := fun _ => none

/-- Read oracle holding a single Apex class source file. -/
def apexFileSys : FileSys :=
  ⟨fun p => if p = "/cls/C.cls"
    then .ok "Integer x = OtherClass.run(OtherClassName.y);"
    else .error .enoent⟩

/-- The direct dependencies of `Foo` in `exampleEnv`. -/
def fooDeps : List Dep :=
  [⟨"Bar", ItemType.component⟩, ⟨"Baz", ItemType.cls⟩]

/-- The manifest produced by resolving `Foo` in `exampleEnv`: a pre-order
traversal in which `Qux` (a depth-2 dependency, reached through `Bar`)
precedes `Baz` (a depth-1 dependency of the root). -/
def exampleManifest : List RegistryDep :=
  [⟨"Foo", ItemType.component, fooDeps, ["Logo"], some "1.0.0"⟩,
   ⟨"Bar", ItemType.component, [⟨"Qux", ItemType.cls⟩], [], none⟩,
   ⟨"Qux", ItemType.cls, [], [], none⟩,
   ⟨"Baz", ItemType.cls, [], [], none⟩]

/-- The non-root part of `exampleManifest`. -/
def exampleRest : List RegistryDep :=
  exampleManifest.tail

/-- The final seen set of the `exampleEnv` resolution. -/
def exampleSeen : List String :=
  ["class:Baz", "class:Qux", "component:Bar", "component:Foo"]

/-- The manifest produced by resolving `A` in the cyclic `cyclicEnv`: both
nodes appear exactly once, the cycle being truncated by the seen set. -/
def cyclicManifest : List RegistryDep :=
  [⟨"A", ItemType.cls, [⟨"B", ItemType.cls⟩], [], none⟩,
   ⟨"B", ItemType.cls, [⟨"A", ItemType.cls⟩], [], none⟩]

theorem collectDepsList_eq (env : AnalysisEnv) (fuel : Nat) :
    (collectDepsListWith fun d s => collectDependencies env fuel d.name d.type s) =
      collectDepsList env fuel := rfl

theorem collectDependencies_unfold (env : AnalysisEnv) (fuel : Nat) (n : String)
    (t : ItemType) (seen : List String) :
    collectDependencies env fuel n t seen =
      if mkKey t n ∈ seen then .ok ([], seen)
      else
        match fuel with
        | 0 => .error .fuelExhausted
        | fuel2 + 1 =>
          match checkForbiddenFiles (env.dirPathOf t n) (env.dirTreeOf t n) with
          | .error e => .error e
          | .ok _ =>
            match env.getItemDependencies n t with
            | .error e => .error e
            | .ok deps =>
              match collectDepsList env fuel2 deps (mkKey t n :: seen) with
              | .error e => .error e
              | .ok (rest, seen2) => .ok (mkEntry env n t deps seen :: rest, seen2) := by
  cases fuel <;> rfl

theorem collect_ok_inversion (env : AnalysisEnv) (fuel : Nat) (n : String) (t : ItemType)
    (seen : List String) (out : List RegistryDep) (s2 : List String)
    (h : collectDependencies env fuel n t seen = .ok (out, s2)) :
    (mkKey t n ∈ seen ∧ out = [] ∧ s2 = seen) ∨
    (mkKey t n ∉ seen ∧ ∃ fuel2 deps rest,
        fuel = fuel2 + 1 ∧
        env.getItemDependencies n t = .ok deps ∧
        collectDepsList env fuel2 deps (mkKey t n :: seen) = .ok (rest, s2) ∧
        out = mkEntry env n t deps seen :: rest) := by
  rw [collectDependencies_unfold] at h
  split at h
  case isTrue hmem =>
    cases h
    exact Or.inl ⟨hmem, rfl, rfl⟩
  case isFalse hmem =>
    refine Or.inr ⟨hmem, ?_⟩
    split at h
    · exact absurd h (by simp)
    case _ fuel2 =>
      split at h
      · exact absurd h (by simp)
      case _ u hforb =>
        split at h
        · exact absurd h (by simp)
        case _ deps hdeps =>
          split at h
          · exact absurd h (by simp)
          case _ rest seen2 hrec =>
            simp only [Except.ok.injEq, Prod.mk.injEq] at h
            obtain ⟨hout, hs⟩ := h
            exact ⟨fuel2, deps, rest, rfl, hdeps, by rw [hrec, hs], hout.symm⟩

theorem resolveInv_refl (seen : List String) : ResolveInv seen [] seen := by
  refine ⟨by simp, by simp, ?_, by simp, by simp⟩
  intro k
  simp

theorem resolveInv_append {seen s1 s2 : List String} {out1 out2 : List RegistryDep}
    (h1 : ResolveInv seen out1 s1) (h2 : ResolveInv s1 out2 s2) :
    ResolveInv seen (out1 ++ out2) s2 := by
  obtain ⟨n1, f1, e1, c1, v1⟩ := h1
  obtain ⟨n2, f2, e2, c2, v2⟩ := h2
  refine ⟨?_, ?_, ?_, ?_, ?_⟩
  · rw [List.map_append, List.nodup_append]
    exact ⟨n1, n2, fun k hk1 hk2 => f2 k hk2 ((e1 k).mpr (Or.inr hk1))⟩
  · intro k hk
    rw [List.map_append, List.mem_append] at hk
    rcases hk with hk | hk
    · exact f1 k hk
    · exact fun hks => f2 k hk ((e1 k).mpr (Or.inl hks))
  · intro k
    rw [List.map_append, List.mem_append, e2 k, e1 k]
    tauto
  · intro e he
    rcases List.mem_append.mp he with he | he
    · exact c1 e he
    · exact c2 e he
  · intro hne e he
    rcases List.mem_append.mp he with he | he
    · exact v1 hne e he
    · refine v2 ?_ e he
      obtain ⟨k, hk⟩ := List.exists_mem_of_ne_nil _ hne
      intro hs1
      have hmem := (e1 k).mpr (Or.inl hk)
      rw [hs1] at hmem
      exact absurd hmem (List.not_mem_nil k)

theorem entryKey_mkEntry (env : AnalysisEnv) (n : String) (t : ItemType)
    (deps : List Dep) (seen : List String) :
    entryKey (mkEntry env n t deps seen) = mkKey t n := rfl

theorem resolveInv_cons {env : AnalysisEnv} {n : String} {t : ItemType}
    {deps : List Dep} {seen s2 : List String} {rest : List RegistryDep}
    (hmem : mkKey t n ∉ seen)
    (hrest : ResolveInv (mkKey t n :: seen) rest s2) :
    ResolveInv seen (mkEntry env n t deps seen :: rest) s2 := by
  obtain ⟨n1, f1, e1, c1, v1⟩ := hrest
  refine ⟨?_, ?_, ?_, ?_, ?_⟩
  · rw [List.map_cons, entryKey_mkEntry, List.nodup_cons]
    exact ⟨fun hk => f1 _ hk (List.mem_cons_self _ _), n1⟩
  · intro k hk
    rw [List.map_cons, entryKey_mkEntry, List.mem_cons] at hk
    rcases hk with rfl | hk
    · exact hmem
    · exact fun hks => f1 k hk (List.mem_cons_of_mem _ hks)
  · intro k
    rw [List.map_cons, entryKey_mkEntry, List.mem_cons, e1 k, List.mem_cons]
    tauto
  · intro e he
    rcases List.mem_cons.mp he with rfl | he
    · intro ht
      have ht2 : t = ItemType.cls := ht
      subst ht2
      rfl
    · exact c1 e he
  · intro hne e he
    rcases List.mem_cons.mp he with rfl | he
    · have hlen : ((mkKey t n :: seen).length == 1) = false := by
        rw [List.length_cons, beq_eq_false_iff_ne]
        intro hcon
        exact hne (List.eq_nil_of_length_eq_zero (by omega))
      show (if ((mkKey t n :: seen).length == 1 && env.version != "") = true
            then some env.version else none) = none
      rw [hlen, Bool.false_and, if_neg (by simp)]
    · exact v1 (List.cons_ne_nil _ _) e he

theorem listInv_of_nodeInv (env : AnalysisEnv) (fuel : Nat)
    (hnode : ∀ n t seen out s2,
      collectDependencies env fuel n t seen = .ok (out, s2) → ResolveInv seen out s2) :
    ∀ ds seen out s2,
      collectDepsList env fuel ds seen = .ok (out, s2) → ResolveInv seen out s2 := by
  intro ds
  induction ds with
  | nil =>
    intro seen out s2 h
    simp only [collectDepsList, collectDepsListWith] at h
    cases h
    exact resolveInv_refl seen
  | cons d ds2 ih =>
    intro seen out s2 h
    simp only [collectDepsList, collectDepsListWith] at h
    split at h
    · exact absurd h (by simp)
    case _ out1 seen1 hstep =>
      split at h
      · exact absurd h (by simp)
      case _ out2 seen2 hrec =>
        simp only [Except.ok.injEq, Prod.mk.injEq] at h
        obtain ⟨hout, hs⟩ := h
        rw [← hout, ← hs]
        exact resolveInv_append (hnode _ _ _ _ _ hstep) (ih _ _ _ hrec)

theorem collect_resolveInv (env : AnalysisEnv) :
    ∀ fuel n t seen out s2,
      collectDependencies env fuel n t seen = .ok (out, s2) → ResolveInv seen out s2 := by
  intro fuel
  induction fuel with
  | zero =>
    intro n t seen out s2 h
    rcases collect_ok_inversion env 0 n t seen out s2 h with ⟨_, rfl, rfl⟩ | ⟨_, fuel2, _, _, hfe, _⟩
    · exact resolveInv_refl _
    · exact absurd hfe (by omega)
  | succ f ih =>
    intro n t seen out s2 h
    rcases collect_ok_inversion env (f + 1) n t seen out s2 h with
      ⟨_, rfl, rfl⟩ | ⟨hmem, fuel2, deps, rest, hfe, hdeps, hrec, rfl⟩
    · exact resolveInv_refl _
    · obtain rfl : fuel2 = f := by omega
      exact resolveInv_cons hmem (listInv_of_nodeInv _ _ ih _ _ _ _ hrec)

theorem collectDepsList_resolveInv (env : AnalysisEnv) (fuel : Nat) :
    ∀ ds seen out s2,
      collectDepsList env fuel ds seen = .ok (out, s2) → ResolveInv seen out s2 :=
  listInv_of_nodeInv env fuel (collect_resolveInv env fuel)

/-- Claim C1: every manifest produced by `collectDependencies` from a clean
seen set contains at most one entry per `kind:name` key, even when several
branches reference the same artifact or the source graph is cyclic; and an
invocation whose `kind:name` key is already in the seen set is never
re-expanded — it returns no entry and leaves the seen set unchanged. -/
theorem collect_unique_entry_keys (env : AnalysisEnv) (fuel : Nat) (n : String)
    (t : ItemType) (out : List RegistryDep) (s2 : List String)
    (h : collectDependencies env fuel n t [] = .ok (out, s2)) :
    (out.map entryKey).Nodup ∧
      ∀ (env2 : AnalysisEnv) (fuel2 : Nat) (n2 : String) (t2 : ItemType)
        (seen : List String), mkKey t2 n2 ∈ seen →
          collectDependencies env2 fuel2 n2 t2 seen = .ok ([], seen) := by
  refine ⟨(collect_resolveInv env fuel n t [] out s2 h).1, ?_⟩
  intro env2 fuel2 n2 t2 seen hmem
  rw [collectDependencies_unfold, if_pos hmem]

/-- Witness for C1 on the cyclic two-node graph of `cyclicEnv`. -/
theorem collect_unique_entry_keys_witness :
    collectDependencies cyclicEnv 5 "A" ItemType.cls [] =
        .ok (cyclicManifest, ["class:B", "class:A"]) ∧
      (cyclicManifest.map entryKey).Nodup :=
  ⟨rfl, (collect_unique_entry_keys cyclicEnv 5 "A" ItemType.cls cyclicManifest
    ["class:B", "class:A"] rfl).1⟩

/-- Claim C10: in every manifest produced by the resolver, an entry of type
`class` has an empty `staticresources` list (static resources are extracted
only for components). -/
theorem class_entries_have_no_staticresources (env : AnalysisEnv) (fuel : Nat)
    (n : String) (t : ItemType) (seen : List String) (out : List RegistryDep)
    (s2 : List String)
    (h : collectDependencies env fuel n t seen = .ok (out, s2)) :
    ∀ e ∈ out, e.type = ItemType.cls → e.staticresources = [] :=
  (collect_resolveInv env fuel n t seen out s2 h).2.2.2.1

/-- Witness for C10 on the `exampleEnv` resolution, whose manifest contains
two class entries. -/
theorem class_entries_have_no_staticresources_witness :
    collectDependencies exampleEnv 5 "Foo" ItemType.component [] =
        .ok (exampleManifest, exampleSeen) ∧
      ∀ e ∈ exampleManifest, e.type = ItemType.cls → e.staticresources = [] :=
  ⟨rfl, class_entries_have_no_staticresources exampleEnv 5 "Foo" ItemType.component []
    exampleManifest exampleSeen rfl⟩

/-- Claim C4: in a manifest resolved from a clean seen set with a non-empty
(truthy) operator-supplied version, the first entry is the root artifact and
alone carries the `version` field, equal to the supplied version; every
entry produced by a recursive invocation has no version field. -/
theorem root_alone_carries_version (env : AnalysisEnv) (fuel : Nat) (n : String)
    (t : ItemType) (out : List RegistryDep) (s2 : List String)
    (hv : env.version ≠ "")
    (h : collectDependencies env fuel n t [] = .ok (out, s2)) :
    ∃ root rest, out = root :: rest ∧ root.name = n ∧ root.type = t ∧
      root.version = some env.version ∧ ∀ e ∈ rest, e.version = none := by
  rcases collect_ok_inversion env fuel n t [] out s2 h with
    ⟨hmem, _, _⟩ | ⟨hmem, fuel2, deps, rest, hfe, hdeps, hrec, hout⟩
  · exact absurd hmem (List.not_mem_nil _)
  · refine ⟨mkEntry env n t deps [], rest, hout, rfl, rfl, ?_, ?_⟩
    · show (if (((mkKey t n :: ([] : List String)).length == 1) && env.version != "") = true
            then some env.version else none) = some env.version
      have hbne : (env.version != "") = true := bne_iff_ne.mpr hv
      rw [show (((mkKey t n :: ([] : List String)).length == 1)) = true from rfl, hbne]
      rfl
    · exact (collectDepsList_resolveInv env fuel2 deps (mkKey t n :: []) rest s2 hrec).2.2.2.2
        (List.cons_ne_nil _ _)

/-- Witness for C4 on the `exampleEnv` resolution (version `1.0.0`). -/
theorem root_alone_carries_version_witness :
    exampleEnv.version ≠ "" ∧
      collectDependencies exampleEnv 5 "Foo" ItemType.component [] =
        .ok (exampleManifest, exampleSeen) ∧
      ∃ root rest, exampleManifest = root :: rest ∧ root.name = "Foo" ∧
        root.type = ItemType.component ∧ root.version = some exampleEnv.version ∧
        ∀ e ∈ rest, e.version = none :=
  ⟨by decide, rfl, root_alone_carries_version exampleEnv 5 "Foo" ItemType.component
    exampleManifest exampleSeen (by decide) rfl⟩

/-- Claim C8: the output of a successful resolution is a pre-order traversal —
the entry of the visited artifact comes first, immediately followed by the
concatenated resolved entry lists of its direct dependencies in discovery
order (second conjunct: the per-dependency results are concatenated left to
right with the threaded seen set); and this ordering is not a topological
sort by dependency depth, as witnessed by the concrete `exampleEnv`
resolution in which `Qux` (reached at depth 2 through `Bar`) precedes the
depth-1 dependency `Baz`. -/
theorem resolver_output_is_preorder (env : AnalysisEnv) (fuel : Nat) (n : String)
    (t : ItemType) (seen : List String) (deps : List Dep) (rest : List RegistryDep)
    (s2 : List String)
    (hmem : mkKey t n ∉ seen)
    (hforb : checkForbiddenFiles (env.dirPathOf t n) (env.dirTreeOf t n) = .ok ())
    (hdeps : env.getItemDependencies n t = .ok deps)
    (hrec : collectDepsList env fuel deps (mkKey t n :: seen) = .ok (rest, s2)) :
    collectDependencies env (fuel + 1) n t seen =
        .ok (mkEntry env n t deps seen :: rest, s2) ∧
      (∀ (d : Dep) (ds : List Dep) (seen0 : List String) (out1 : List RegistryDep)
          (s1 : List String) (out2 : List RegistryDep) (s3 : List String),
        collectDependencies env fuel d.name d.type seen0 = .ok (out1, s1) →
        collectDepsList env fuel ds s1 = .ok (out2, s3) →
        collectDepsList env fuel (d :: ds) seen0 = .ok (out1 ++ out2, s3)) ∧
      collectDependencies exampleEnv 5 "Foo" ItemType.component [] =
        .ok (exampleManifest, exampleSeen) := by
  refine ⟨?_, ?_, rfl⟩
  · rw [collectDependencies_unfold, if_neg hmem]
    simp only [hforb, hdeps, hrec]
  · intro d ds seen0 out1 s1 out2 s3 h1 h2
    simp only [collectDepsList] at h2 ⊢
    simp only [collectDepsListWith, h1, h2]

/-- Witness for C8 at the root invocation of the `exampleEnv` resolution. -/
theorem resolver_output_is_preorder_witness :
    mkKey ItemType.component "Foo" ∉ ([] : List String) ∧
      collectDependencies exampleEnv 5 "Foo" ItemType.component [] =
        .ok (mkEntry exampleEnv "Foo" ItemType.component fooDeps [] :: exampleRest,
          exampleSeen) :=
  ⟨by decide,
   (resolver_output_is_preorder exampleEnv 4 "Foo" ItemType.component [] fooDeps
     exampleRest exampleSeen (by decide) rfl rfl rfl).1⟩

theorem firstForbidden_of_mem (p : String) : ∀ l : List String, p ∈ l →
    toLowerStr (extnameOf p) ∈ FORBIDDEN_EXTENSIONS →
    ∃ q ext, firstForbidden l = some (q, ext) ∧ q ∈ l ∧
      ext = toLowerStr (extnameOf q) ∧ ext ∈ FORBIDDEN_EXTENSIONS := by
  intro l
  induction l with
  | nil => intro h _; exact absurd h (List.not_mem_nil p)
  | cons y ys ih =>
    intro hp hext
    by_cases hy : toLowerStr (extnameOf y) ∈ FORBIDDEN_EXTENSIONS
    · refine ⟨y, toLowerStr (extnameOf y), ?_, List.mem_cons_self _ _, rfl, hy⟩
      simp only [firstForbidden]
      rw [if_pos hy]
    · rcases List.mem_cons.mp hp with rfl | hp2
      · exact absurd hext hy
      · obtain ⟨q, ext, hff, hq, hexteq, hextf⟩ := ih hp2 hext
        refine ⟨q, ext, ?_, List.mem_cons_of_mem _ hq, hexteq, hextf⟩
        simp only [firstForbidden]
        rw [if_neg hy, hff]

/-- Claim C3: when the directory tree of the artifact being resolved contains
a file whose lower-cased extension is in the forbidden set, resolution of
that artifact aborts with an error naming an offending file path and its
extension, before any dependency extraction (the conclusion holds for every
`getItemDependencies` oracle); no manifest is returned and, for a root
artifact, the deploy run fails at the collection step with the archive
builder and the network never invoked. -/
theorem forbidden_file_aborts_resolution (env : AnalysisEnv) (fuel : Nat) (n : String)
    (t : ItemType) (seen : List String) (p : String)
    (hmem : mkKey t n ∉ seen)
    (hp : p ∈ walkDirAsync (env.dirPathOf t n) (env.dirTreeOf t n))
    (hext : toLowerStr (extnameOf p) ∈ FORBIDDEN_EXTENSIONS) :
    ∃ q ext, q ∈ walkDirAsync (env.dirPathOf t n) (env.dirTreeOf t n) ∧
      ext = toLowerStr (extnameOf q) ∧ ext ∈ FORBIDDEN_EXTENSIONS ∧
      collectDependencies env (fuel + 1) n t seen = .error (.forbidden q ext) ∧
      (seen = [] → ∀ (rfs : ResourceFs) (resourceDir : String),
        runDeploy env rfs resourceDir (fuel + 1) n t =
          ⟨.collectFailed (.forbidden q ext), false, false⟩) := by
  obtain ⟨q, ext, hff, hq, hexteq, hextf⟩ := firstForbidden_of_mem p _ hp hext
  have hcheck : checkForbiddenFiles (env.dirPathOf t n) (env.dirTreeOf t n) =
      .error (.forbidden q ext) := by
    simp only [checkForbiddenFiles, hff]
  have hcol : collectDependencies env (fuel + 1) n t seen = .error (.forbidden q ext) := by
    rw [collectDependencies_unfold, if_neg hmem]
    simp only [hcheck]
  refine ⟨q, ext, hq, hexteq, hextf, hcol, ?_⟩
  intro hseen rfs resourceDir
  subst hseen
  simp only [runDeploy, hcol]

/-- Witness for C3 on `forbiddenEnv`, whose artifact tree contains
`deploy.SH`. -/
theorem forbidden_file_aborts_resolution_witness :
    "/p/X/sub/deploy.SH" ∈ walkDirAsync (forbiddenEnv.dirPathOf ItemType.component "X")
        (forbiddenEnv.dirTreeOf ItemType.component "X") ∧
      ∃ q ext, q ∈ walkDirAsync (forbiddenEnv.dirPathOf ItemType.component "X")
          (forbiddenEnv.dirTreeOf ItemType.component "X") ∧
        ext = toLowerStr (extnameOf q) ∧ ext ∈ FORBIDDEN_EXTENSIONS ∧
        collectDependencies forbiddenEnv 3 "X" ItemType.component [] =
          .error (.forbidden q ext) ∧
        (([] : List String) = [] → ∀ (rfs : ResourceFs) (resourceDir : String),
          runDeploy forbiddenEnv rfs resourceDir 3 "X" ItemType.component =
            ⟨.collectFailed (.forbidden q ext), false, false⟩) :=
  ⟨by decide,
   forbidden_file_aborts_resolution forbiddenEnv 2 "X" ItemType.component []
     "/p/X/sub/deploy.SH" (by decide) (by decide) (by decide)⟩

theorem dedupFirstAux_mem (x : String) : ∀ (l seen : List String),
    x ∈ dedupFirstAux seen l ↔ x ∈ l ∧ x ∉ seen := by
  intro l
  induction l with
  | nil => intro seen; simp [dedupFirstAux]
  | cons y ys ih =>
    intro seen
    by_cases hy : y ∈ seen
    · rw [dedupFirstAux, if_pos hy, ih]
      simp only [List.mem_cons]
      constructor
      · exact fun ⟨hx, hns⟩ => ⟨Or.inr hx, hns⟩
      · rintro ⟨hx | hx, hns⟩
        · exact absurd (hx ▸ hy) hns
        · exact ⟨hx, hns⟩
    · rw [dedupFirstAux, if_neg hy]
      simp only [List.mem_cons, ih]
      constructor
      · rintro (rfl | ⟨hx, hns⟩)
        · exact ⟨Or.inl rfl, hy⟩
        · exact ⟨Or.inr hx, fun h => hns (Or.inr h)⟩
      · rintro ⟨rfl | hx, hns⟩
        · exact Or.inl rfl
        · by_cases hxy : x = y
          · exact Or.inl hxy
          · exact Or.inr ⟨hx, fun h => h.elim hxy hns⟩

theorem dedupFirst_mem (x : String) (l : List String) :
    x ∈ dedupFirst l ↔ x ∈ l := by
  rw [dedupFirst, dedupFirstAux_mem]
  simp

theorem validateOneResource_error_of_bad (rfs : ResourceFs) (resourceDir r : String)
    (h : findStaticResourceFileAsync rfs resourceDir r = none ∨
         fileExistsAndIsFile rfs (resourceDir ++ "/" ++ r ++ ".resource-meta.xml") = false) :
    ∃ msg, validateOneResource rfs resourceDir r = .error msg := by
  rcases h with h | h
  · refine ⟨"Ressource statique référencée mais introuvable: " ++ r, ?_⟩
    simp only [validateOneResource, h]
    rfl
  · simp only [validateOneResource]
    split_ifs with h1 h2
    · exact ⟨_, rfl⟩
    · exact ⟨_, rfl⟩
    · rw [h] at h2
      exact absurd rfl h2

theorem validateStaticResources_error_of_mem (rfs : ResourceFs) (resourceDir r : String) :
    ∀ rs : List String, r ∈ rs →
    (∃ m0, validateOneResource rfs resourceDir r = .error m0) →
    ∃ msg, validateStaticResources rfs resourceDir rs = .error msg := by
  intro rs
  induction rs with
  | nil => intro h _; exact absurd h (List.not_mem_nil r)
  | cons y ys ih =>
    intro hr hbad
    cases hy : validateOneResource rfs resourceDir y with
    | error m =>
      refine ⟨m, ?_⟩
      simp only [validateStaticResources, hy]
    | ok u =>
      rcases List.mem_cons.mp hr with rfl | hr2
      · obtain ⟨m0, hb⟩ := hbad
        rw [hb] at hy
        cases hy
      · obtain ⟨msg, hmsg⟩ := ih hr2 hbad
        refine ⟨msg, ?_⟩
        simp only [validateStaticResources, hy, hmsg]

/-- Claim C2: if any static resource referenced by the resolved manifest has
no payload file in the static-resources root or lacks its metadata
descriptor, the deploy run fails at the validation step: the outcome is a
validation failure, the archive builder is never invoked
(`archiveBuilt = false`) and no network call is made
(`networkCalled = false`). -/
theorem missing_static_resource_aborts_before_packaging (env : AnalysisEnv)
    (rfs : ResourceFs) (resourceDir : String) (fuel : Nat) (n : String)
    (t : ItemType) (items : List RegistryDep) (s2 : List String) (r : String)
    (hcollect : collectDependencies env fuel n t [] = .ok (items, s2))
    (hr : r ∈ items.flatMap fun item => item.staticresources)
    (hbad : findStaticResourceFileAsync rfs resourceDir r = none ∨
            fileExistsAndIsFile rfs (resourceDir ++ "/" ++ r ++ ".resource-meta.xml") = false) :
    ∃ msg, runDeploy env rfs resourceDir fuel n t =
      ⟨.validationFailed msg, false, false⟩ := by
  have hmem : r ∈ dedupFirst (items.flatMap fun item => item.staticresources) :=
    (dedupFirst_mem _ _).mpr hr
  obtain ⟨msg, hv⟩ := validateStaticResources_error_of_mem rfs resourceDir r _ hmem
    (validateOneResource_error_of_bad rfs resourceDir r hbad)
  refine ⟨msg, ?_⟩
  simp only [runDeploy, hcollect, hv]

/-- Witness for C2: the `exampleEnv` manifest references `Logo`, which is
absent from the empty static-resources root. -/
theorem missing_static_resource_aborts_before_packaging_witness :
    collectDependencies exampleEnv 5 "Foo" ItemType.component [] =
        .ok (exampleManifest, exampleSeen) ∧
      "Logo" ∈ exampleManifest.flatMap (fun item => item.staticresources) ∧
      findStaticResourceFileAsync emptyResourceFs "/res" "Logo" = none ∧
      ∃ msg, runDeploy exampleEnv emptyResourceFs "/res" 5 "Foo" ItemType.component =
        ⟨.validationFailed msg, false, false⟩ :=
  ⟨rfl, by decide, rfl,
   missing_static_resource_aborts_before_packaging exampleEnv emptyResourceFs "/res" 5
     "Foo" ItemType.component exampleManifest exampleSeen "Logo" rfl (by decide)
     (Or.inl rfl)⟩

/-- Claim C6 (amended): `safeListDirNamesAsync` raises a descriptive error —
rather than returning an empty sequence — when the directory is absent or
unreadable (the error is caught and surfaced by `scanProject`), and returns
exactly the names of the immediate subdirectory entries when the directory
is readable. -/
theorem safeListDirNames_behavior (dfs : DirFs) (base : String) :
    (dfs.readdir base = none →
      safeListDirNamesAsync dfs base =
        .error ("Erreur lors de la lecture du dossier " ++ base)) ∧
    (∀ entries, dfs.readdir base = some entries →
      safeListDirNamesAsync dfs base =
        .ok ((entries.filter fun e => e.isDir).map fun e => e.name)) := by
  constructor
  · intro h
    simp only [safeListDirNamesAsync, h]
  · intro entries h
    simp only [safeListDirNamesAsync, h]

/-- Counterexample to C6 as stated: on an absent or unreadable directory the
lister raises an error instead of returning the empty sequence. -/
theorem safeListDirNames_counterexample :
    safeListDirNamesAsync absentDirFs "force-app/main/default/lwc" =
      .error "Erreur lors de la lecture du dossier force-app/main/default/lwc" := rfl

/-- Witness for the amended C6 on a concrete readable directory listing. -/
theorem safeListDirNames_behavior_witness :
    exampleDirFs.readdir "force-app/main/default/lwc" =
        some [⟨"compA", true⟩, ⟨"notes.txt", false⟩, ⟨"compB", true⟩] ∧
      safeListDirNamesAsync exampleDirFs "force-app/main/default/lwc" =
        .ok ["compA", "compB"] :=
  ⟨rfl, (safeListDirNames_behavior exampleDirFs "force-app/main/default/lwc").2
    [⟨"compA", true⟩, ⟨"notes.txt", false⟩, ⟨"compB", true⟩] rfl⟩

/-- Claim C7 (amended): absence of an inspected Component source file
(`.html`/`.ts`/`.js`, read through `extractDependenciesFromFile`) is not an
error and contributes an empty result, but a read failure on a Class's
`.cls` source (read through `extractApexDependencies`, which has no
try/catch) propagates as an error and aborts extraction. -/
theorem missing_inspected_file_behavior (fsys : FileSys) (p q : String)
    (matchesOf : String → List String) (allClassNames : List String)
    (self : String) (e : FsError)
    (h1 : fsys.readFile p = .error .enoent)
    (h2 : fsys.readFile q = .error e) :
    extractDependenciesFromFile fsys p matchesOf = .ok [] ∧
    extractApexDependencies fsys q allClassNames self = .error e := by
  constructor
  · simp only [extractDependenciesFromFile, h1]
  · simp only [extractApexDependencies, h2]

/-- Counterexample to C7 as stated: a missing `.cls` source file makes Apex
dependency extraction fail with the read error instead of contributing an
empty result. -/
theorem missing_cls_file_counterexample :
    extractApexDependencies enoentFileSys "/cls/MyClass.cls" ["Other"] "MyClass" =
      .error FsError.enoent := rfl

/-- Witness for the amended C7 on concrete missing files. -/
theorem missing_inspected_file_behavior_witness :
    enoentFileSys.readFile "/lwc/cmp/cmp.html" = .error FsError.enoent ∧
      extractDependenciesFromFile enoentFileSys "/lwc/cmp/cmp.html" (fun _ => []) = .ok [] ∧
      extractApexDependencies enoentFileSys "/cls/A.cls" ["B"] "A" = .error FsError.enoent :=
  ⟨rfl,
   (missing_inspected_file_behavior enoentFileSys "/lwc/cmp/cmp.html" "/cls/A.cls"
     (fun _ => []) ["B"] "A" FsError.enoent rfl rfl).1,
   (missing_inspected_file_behavior enoentFileSys "/lwc/cmp/cmp.html" "/cls/A.cls"
     (fun _ => []) ["B"] "A" FsError.enoent rfl rfl).2⟩

/-- Claim C9: a file in the static-resources root is accepted as resource
`R`'s payload exactly when its name equals `R` or starts with `R` followed
by a dot and it does not end with the `.resource-meta.xml` descriptor
suffix; and the per-resource validation succeeds only when the descriptor
file `R ++ ".resource-meta.xml"` stats as a regular file (not a directory)
and a payload file was found. -/
theorem static_resource_payload_acceptance (rfs : ResourceFs)
    (resourceDir resName file : String) :
    (isPayloadFor resName file = true ↔
      ((file = resName ∨ (resName ++ ".").toList <+: file.toList) ∧
        ¬ ".resource-meta.xml".toList <:+ file.toList)) ∧
    (validateOneResource rfs resourceDir resName = .ok () →
      fileExistsAndIsFile rfs (resourceDir ++ "/" ++ resName ++ ".resource-meta.xml") = true ∧
      ∃ f, findStaticResourceFileAsync rfs resourceDir resName = some f) := by
  constructor
  · rw [isPayloadFor, Bool.and_eq_true, Bool.or_eq_true, beq_iff_eq,
      strStartsWith, strEndsWith, List.isPrefixOf_iff_prefix,
      Bool.not_eq_true', ← Bool.not_eq_true, Bool.not_eq_true,
      ← List.isSuffixOf_iff_suffix]
    constructor
    · rintro ⟨h1, h2⟩
      exact ⟨h1, fun hc => by rw [hc] at h2; cases h2⟩
    · rintro ⟨h1, h2⟩
      refine ⟨h1, ?_⟩
      cases hb : ".resource-meta.xml".toList.isSuffixOf file.toList with
      | false => rfl
      | true => exact absurd hb h2
  · intro hok
    simp only [validateOneResource] at hok
    cases hfind : findStaticResourceFileAsync rfs resourceDir resName with
    | none =>
      rw [hfind] at hok
      simp at hok
    | some f =>
      rw [hfind] at hok
      cases hfe : fileExistsAndIsFile rfs
          (resourceDir ++ "/" ++ resName ++ ".resource-meta.xml") with
      | false =>
        rw [hfe] at hok
        simp at hok
      | true => exact ⟨rfl, f, rfl⟩

/-- Witness for C9 on a concrete static-resources root holding `Logo.png`
and `Logo.resource-meta.xml`. -/
theorem static_resource_payload_acceptance_witness :
    validateOneResource exampleResourceFs "/res" "Logo" = .ok () ∧
      (isPayloadFor "Logo" "Logo.png" = true ↔
        (("Logo.png" = "Logo" ∨ ("Logo" ++ ".").toList <+: "Logo.png".toList) ∧
          ¬ ".resource-meta.xml".toList <:+ "Logo.png".toList)) ∧
      fileExistsAndIsFile exampleResourceFs ("/res" ++ "/" ++ "Logo" ++ ".resource-meta.xml") = true ∧
      ∃ f, findStaticResourceFileAsync exampleResourceFs "/res" "Logo" = some f :=
  ⟨rfl,
   (static_resource_payload_acceptance exampleResourceFs "/res" "Logo" "Logo.png").1,
   ((static_resource_payload_acceptance exampleResourceFs "/res" "Logo" "Logo.png").2 rfl).1,
   ((static_resource_payload_acceptance exampleResourceFs "/res" "Logo" "Logo.png").2 rfl).2⟩

theorem ctxOf_cons (prev : Option Char) (c : Char) (pre : List Char) :
    ctxOf prev (c :: pre) = ctxOf (some c) pre := by
  cases pre with
  | nil => rfl
  | cons d ds =>
    simp only [ctxOf, List.getLast?_cons_cons]
    cases hgl : (d :: ds).getLast? with
    | none => exact absurd (List.getLast?_eq_none_iff.mp hgl) (List.cons_ne_nil d ds)
    | some x => rfl

theorem wordEndsAt_iff (name rest : List Char) :
    wordEndsAt name rest = true ↔ ∃ post, rest = name ++ post ∧ rightOk post = true := by
  rw [wordEndsAt, Bool.and_eq_true, List.isPrefixOf_iff_prefix]
  constructor
  · rintro ⟨⟨post, hpost⟩, hr⟩
    refine ⟨post, hpost.symm, ?_⟩
    rw [← hpost, List.drop_left] at hr
    exact hr
  · rintro ⟨post, rfl, hr⟩
    exact ⟨⟨post, rfl⟩, by rw [List.drop_left]; exact hr⟩

theorem wbScan_iff (name : List Char) : ∀ (rest : List Char) (prev : Option Char),
    wbScan name prev rest = true ↔
      ∃ pre post, rest = pre ++ name ++ post ∧
        leftOk (ctxOf prev pre) = true ∧ rightOk post = true := by
  intro rest
  induction rest with
  | nil =>
    intro prev
    rw [wbScan, Bool.and_eq_true, wordEndsAt_iff]
    constructor
    · rintro ⟨hl, post, hpost, hr⟩
      obtain ⟨hname, hpostnil⟩ := (List.append_eq_nil).mp hpost.symm
      refine ⟨[], [], ?_, hl, rfl⟩
      rw [hname]
      rfl
    · rintro ⟨pre, post, heq, hlo, hro⟩
      obtain ⟨hpre, hrest⟩ := (List.append_eq_nil).mp
        ((List.append_assoc pre name post ▸ heq).symm)
      obtain ⟨hname, hpost⟩ := (List.append_eq_nil).mp hrest
      subst hpre
      exact ⟨hlo, [], by simp [hname], rfl⟩
  | cons c cs ih =>
    intro prev
    rw [wbScan, Bool.or_eq_true, Bool.and_eq_true, wordEndsAt_iff, ih (some c)]
    constructor
    · rintro (⟨hl, post, hpost, hr⟩ | ⟨pre, post, heq, hlo, hro⟩)
      · exact ⟨[], post, by rw [hpost]; rfl, hl, hr⟩
      · refine ⟨c :: pre, post, ?_, ?_, hro⟩
        · rw [List.cons_append, List.cons_append, ← List.cons_append]
          rw [heq]
          rfl
        · rw [ctxOf_cons]
          exact hlo
    · rintro ⟨pre, post, heq, hlo, hro⟩
      cases pre with
      | nil =>
        left
        refine ⟨hlo, post, ?_, hro⟩
        rw [heq]
        rfl
      | cons c2 pre2 =>
        right
        have heq2 : c :: cs = c2 :: (pre2 ++ name ++ post) := by
          rw [heq]
          rfl
        injection heq2 with hc hcs
        subst hc
        refine ⟨pre2, post, hcs, ?_, hro⟩
        rw [← ctxOf_cons]
        exact hlo

theorem leftOk_ctx_none (pre : List Char) :
    leftOk (ctxOf none pre) = true ↔
      ∀ c, pre.getLast? = some c → isWordChar c = false := by
  cases hl : pre.getLast? with
  | none => simp [ctxOf, hl, leftOk]
  | some c => simp [ctxOf, hl, leftOk, Bool.not_eq_true']

theorem rightOk_iff (post : List Char) :
    rightOk post = true ↔ ∀ c, post.head? = some c → isWordChar c = false := by
  cases post with
  | nil => simp [rightOk]
  | cons c cs => simp [rightOk, Bool.not_eq_true']

theorem testWordBoundary_iff (className code : String) :
    testWordBoundary className code = true ↔
      ∃ pre post : List Char,
        code.toList = pre ++ className.toList ++ post ∧
        (∀ c, pre.getLast? = some c → isWordChar c = false) ∧
        (∀ c, post.head? = some c → isWordChar c = false) := by
  rw [testWordBoundary, wbScan_iff]
  constructor
  · rintro ⟨pre, post, heq, hlo, hro⟩
    exact ⟨pre, post, heq, (leftOk_ctx_none pre).mp hlo, (rightOk_iff post).mp hro⟩
  · rintro ⟨pre, post, heq, hlo, hro⟩
    exact ⟨pre, post, heq, (leftOk_ctx_none pre).mpr hlo, (rightOk_iff post).mpr hro⟩

/-- Claim C5: for a readable class source `code` and any known class name
`X`, `X` is listed as a dependency of the class `self` being resolved iff
`X` is not `self` and `X` occurs in `code` as a standalone word — an
occurrence delimited on both sides by either the string edge or a non-word
character — so a substring occurrence inside a longer identifier does not
count and the class never lists itself. -/
theorem apex_dependency_word_boundary (fsys : FileSys) (clsPath code self X : String)
    (allClassNames : List String) (res : List String)
    (hread : fsys.readFile clsPath = .ok code)
    (hres : extractApexDependencies fsys clsPath allClassNames self = .ok res)
    (hX : X ∈ allClassNames) :
    X ∈ res ↔ X ≠ self ∧ ∃ pre post : List Char,
      code.toList = pre ++ X.toList ++ post ∧
      (∀ c, pre.getLast? = some c → isWordChar c = false) ∧
      (∀ c, post.head? = some c → isWordChar c = false) := by
  simp only [extractApexDependencies, hread, Except.ok.injEq] at hres
  subst hres
  rw [List.mem_filter, Bool.and_eq_true, bne_iff_ne, testWordBoundary_iff]
  constructor
  · rintro ⟨_, hne, hw⟩
    exact ⟨hne, hw⟩
  · rintro ⟨hne, hw⟩
    exact ⟨hX, hne, hw⟩

/-- Witness for C5: in the concrete class source, `OtherClass` occurs both
standalone and as a prefix of the longer identifier `OtherClassName`, and
is listed. -/
theorem apex_dependency_word_boundary_witness :
    apexFileSys.readFile "/cls/C.cls" = .ok "Integer x = OtherClass.run(OtherClassName.y);" ∧
      extractApexDependencies apexFileSys "/cls/C.cls" ["OtherClass"] "C" = .ok ["OtherClass"] ∧
      ("OtherClass" ∈ ["OtherClass"] ↔ "OtherClass" ≠ "C" ∧
        ∃ pre post : List Char,
          "Integer x = OtherClass.run(OtherClassName.y);".toList =
            pre ++ "OtherClass".toList ++ post ∧
          (∀ c, pre.getLast? = some c → isWordChar c = false) ∧
          (∀ c, post.head? = some c → isWordChar c = false)) :=
  ⟨rfl, rfl,
   apex_dependency_word_boundary apexFileSys "/cls/C.cls"
     "Integer x = OtherClass.run(OtherClassName.y);" "C" "OtherClass" ["OtherClass"]
     ["OtherClass"] rfl rfl (by decide)⟩

end LwcRegistry
